import Mathlib

/-!
# StatusBeat editor core: a shallow embedding with verified properties

This development embeds the core logic of `src/components/Editor.tsx` of the
StatusBeat repository: the word-wrap routine, the frame renderer (as a display
list of draw operations), the recording controller (start/stop/timer/onended
handlers over an explicit editor state), the trim-selector clamping, the
render-loop scheduler, and the download-filename construction.  Each claim of
the specification is then settled as a theorem about these definitions.

Conventions: seconds and pixel coordinates are rationals (`ℚ`); 8-bit analyser
magnitudes are naturals; text is `List Char` (mirroring JavaScript string
indexing); DOM / MediaRecorder effects are modelled as explicit fields of an
`EditorState` record, and React state updates as pure state transformers.
-/

namespace StatusBeat

/-! ## String utilities -/

/-- Prepend a character to the first piece of a split result; if there is no
piece yet, start one.  Helper for `jsSplit`. -/
def consHead (x : Char) : List (List Char) → List (List Char)
  | [] => [[x]]
  | w :: rest => (x :: w) :: rest

/-- Embeds JavaScript `text.split(sep)` for a single-character separator
(`text.split(' ')` at Editor.tsx line 205): splits at every occurrence of the
separator, producing empty pieces between adjacent separators and at the ends;
`"".split(' ')` is `[""]`. -/
def jsSplit (c : Char) : List Char → List (List Char)
  | [] => [[]]
  | x :: xs => if x = c then [] :: jsSplit c xs else consHead x (jsSplit c xs)

/-- Join a list of pieces with a separator list between adjacent pieces. -/
def joinSep (sep : List Char) : List (List Char) → List Char
  | [] => []
  | [w] => w
  | w :: x :: xs => w ++ sep ++ joinSep sep (x :: xs)

/-- Canonical whitespace-collapsed form of a text: its nonempty space-separated
words, joined by single spaces.  Two texts are "equal modulo whitespace
collapsing" when their `collapseWs` forms agree. -/
def collapseWs (t : List Char) : List Char :=
  joinSep [' '] ((jsSplit ' ' t).filter (fun w => w ≠ []))

/-! ## Word wrap (Editor.tsx lines 204–222, `wrapText`)

The code accumulates words into `line`, always appending a trailing space
(`testLine = line + words[n] + ' '`), measures the accumulated string with
`ctx.measureText`, and flushes the current line when the measured width
exceeds `maxWidth` (except at the very first word, `n > 0`).  We represent a
line by its list of words; `lineOf` recovers the exact accumulated string. -/

/-- The string a line's word list denotes: each word followed by one space,
exactly as the code accumulates `line + words[n] + ' '`. -/
def lineOf (ws : List (List Char)) : List Char :=
  (ws.map (fun w => w ++ [' '])).flatten

/-- The wrap loop of `wrapText` (Editor.tsx lines 209–220).  `measure` stands
for `ctx.measureText(·).width` (an arbitrary width function), `line` is the
accumulated line, `first` is true exactly when `n = 0`. -/
def wrapGo (measure : List Char → ℚ) (maxWidth : ℚ) (line : List (List Char))
    (first : Bool) : List (List Char) → List (List (List Char))
  | [] => [line]
  | w :: ws =>
    if maxWidth < measure (lineOf (line ++ [w])) ∧ first = false then
      line :: wrapGo measure maxWidth [w] false ws
    else
      wrapGo measure maxWidth (line ++ [w]) false ws

/-- Embeds `wrapText` (Editor.tsx lines 204–222): split the text on single
spaces, run the greedy wrap loop, return the produced lines (as word lists;
the code draws `lineOf` of each at successive `lineHeight` offsets). -/
def wrapText (measure : List Char → ℚ) (maxWidth : ℚ) (text : List Char) :
    List (List (List Char)) :=
  wrapGo measure maxWidth [] true (jsSplit ' ' text)

/-! ## Frame renderer (Editor.tsx lines 129–282)

A rendered frame is modelled as the ordered list of canvas draw operations the
code issues (a display list).  Later operations paint over earlier ones; an
operation with an empty area paints nothing, which `opVisible` captures. -/

/-- Canvas width in logical pixels (Editor.tsx line 11). -/
def CANVAS_WIDTH : ℚ := 540

/-- Canvas height in logical pixels (Editor.tsx line 12). -/
def CANVAS_HEIGHT : ℚ := 960

/-- Visualization mode (`types.ts`: bars or circle). -/
inductive VisualizerMode where
  | bars
  | circle
deriving DecidableEq

/-- A background image asset: its natural dimensions and whether it has
finished loading (`img.complete`, Editor.tsx line 169). -/
structure BgImage where
  width : ℚ
  height : ℚ
  complete : Bool
deriving DecidableEq

/-- The render configuration consumed by `drawVisualizer`: mode, optional
background image, track title (`songData.name`) and caption. -/
structure RenderCfg where
  mode : VisualizerMode
  backgroundImage : Option BgImage
  name : List Char
  caption : List Char
deriving DecidableEq

/-- One canvas draw operation, with the parameters the code passes. -/
inductive DrawOp where
  /-- `ctx.fillRect(x, y, w, h)` with fill colour `rgba(r, g, b, a)`. -/
  | fillRect (x y w h : ℚ) (r g b a : ℚ)
  /-- the vertical gradient rectangle of `drawBackground` (lines 173–177). -/
  | gradientRect (x y w h : ℚ)
  /-- `ctx.drawImage` with the scale-and-crop placement of `drawImageCover`. -/
  | imageCover (imgW imgH dx dy dw dh : ℚ)
  /-- `ctx.fillText(text, x, y)`. -/
  | textAt (text : List Char) (x y : ℚ)
  /-- one radial tick of `drawCircle`: `ctx.fillRect(0, radius, 4, len)` after
  `seg + 1` rotations of `step` degrees, hue `hue` (lines 252–265). -/
  | radialTick (seg : ℕ) (len : ℚ) (hue : ℕ)
  /-- the static ring outline: `ctx.arc(cx, cy, r, 0, 2π)` stroked white with
  line width 3 (lines 270–274). -/
  | ringStroke (cx cy r : ℚ)
deriving DecidableEq

/-- Embeds `drawImageCover` (Editor.tsx lines 277–282): scale to cover,
centre, crop overflow. -/
def drawImageCover (img : BgImage) (w h : ℚ) : DrawOp :=
  let ratio := max (w / img.width) (h / img.height)
  .imageCover img.width img.height ((w - img.width * ratio) / 2)
    ((h - img.height * ratio) / 2) (img.width * ratio) (img.height * ratio)

/-- Embeds `drawBackground` (Editor.tsx lines 162–183): black clear, then
either the cover-scaled image (only if loaded) or the fixed gradient, then the
half-opacity dark overlay. -/
def drawBackground (cfg : RenderCfg) : List DrawOp :=
  [.fillRect 0 0 CANVAS_WIDTH CANVAS_HEIGHT 0 0 0 1] ++
  (match cfg.backgroundImage with
   | some img =>
     if img.complete then [drawImageCover img CANVAS_WIDTH CANVAS_HEIGHT] else []
   | none => [.gradientRect 0 0 CANVAS_WIDTH CANVAS_HEIGHT]) ++
  [.fillRect 0 0 CANVAS_WIDTH CANVAS_HEIGHT 0 0 0 (1/2)]

/-- Embeds `drawText` (Editor.tsx lines 185–202): the centred title, then the
wrapped caption lines (only when the caption is nonempty, matching the JS
truthiness test `if (visualData.caption)`), each line at `lineHeight = 30`
increments below `CANVAS_HEIGHT / 2 + 100`. -/
def drawText (measure : List Char → ℚ) (cfg : RenderCfg) : List DrawOp :=
  [.textAt cfg.name (CANVAS_WIDTH / 2) (CANVAS_HEIGHT / 2 - 80)] ++
  (if cfg.caption ≠ [] then
    ((wrapText measure (CANVAS_WIDTH - 60) cfg.caption).enum.map
      (fun p => DrawOp.textAt (lineOf p.2) (CANVAS_WIDTH / 2)
        (CANVAS_HEIGHT / 2 + 100 + (p.1 : ℚ) * 30)))
   else [])

/-- Embeds `drawBars` (Editor.tsx lines 224–238): one bar per analyser bucket,
height `1.5 ×` magnitude, width `2.5 ×` the even division of the canvas width,
advancing by `barWidth + 1`, colour computed per index. -/
def drawBars (data : List ℕ) : List DrawOp :=
  let n := data.length
  let barWidth : ℚ := (CANVAS_WIDTH / n) * (5 / 2)
  (List.range n).map (fun i =>
    let barHeight : ℚ := (data.getD i 0 : ℚ) * (3 / 2)
    .fillRect (i * (barWidth + 1)) (CANVAS_HEIGHT - barHeight - 120) barWidth
      barHeight (barHeight + 25 * ((i : ℚ) / n)) (250 * ((i : ℚ) / n)) 50 (9/10))

/-- Embeds `drawCircle` (Editor.tsx lines 240–275): 120 angular segments, each
sampling bucket `⌊i · (bufferLength / 2) / segments⌋` and drawing a tick of
length `0.8 ×` magnitude with hue `3 i`; afterwards the static white ring
outline at radius `150 − 5`. -/
def drawCircle (data : List ℕ) : List DrawOp :=
  let segments : ℕ := 120
  ((List.range segments).map (fun (i : ℕ) =>
    let dataIndex : ℕ := (((i : ℚ) * ((data.length : ℚ) / 2)) / segments).floor.toNat
    DrawOp.radialTick i ((data.getD dataIndex 0 : ℚ) * (4 / 5)) (i * 3))) ++
  [.ringStroke (CANVAS_WIDTH / 2) (CANVAS_HEIGHT / 2) (150 - 5)]

/-- Embeds `drawVisualizer` (Editor.tsx lines 129–160): background, text, then
the visualization — only when the analyser exists (`if (analyserRef.current)`,
line 142); `analyser` carries the byte frequency data when the audio graph is
open and is `none` otherwise — and finally the progress bar when the audio
duration is known and nonzero. -/
def drawVisualizer (measure : List Char → ℚ) (cfg : RenderCfg)
    (analyser : Option (List ℕ)) (currentTime duration : ℚ) : List DrawOp :=
  drawBackground cfg ++ drawText measure cfg ++
  (match analyser with
   | none => []
   | some data =>
     if cfg.mode = .bars then drawBars data else drawCircle data) ++
  (if duration ≠ 0 then
    [.fillRect 0 (CANVAS_HEIGHT - 6) (CANVAS_WIDTH * (currentTime / duration)) 6
      34 197 94 1]
   else [])

/-- Whether a draw operation changes any pixel: a `fillRect`or tick with a
zero side paints nothing; every other operation paints. -/
def opVisible : DrawOp → Bool
  | .fillRect _ _ w h _ _ _ _ => decide (w ≠ 0 ∧ h ≠ 0)
  | .radialTick _ len _ => decide (len ≠ 0)
  | _ => true

/-- The pixel-affecting subsequence of a display list: two frames with the
same visible operations render identically. -/
def visibleOps (ops : List DrawOp) : List DrawOp :=
  ops.filter opVisible

/-! ## Recording controller (Editor.tsx lines 26–87 and 316–405)

The mutable pieces the component manipulates — React state (`isPlaying`,
`isRecording`, `recordedVideoUrl`, `startTime`, `duration`), the
`MediaRecorder` and chunk refs, and the `<audio>` element — are gathered into
one `EditorState` record, and every handler becomes a state transformer. -/

/-- `MediaRecorder.state` as the code consults it: recording after
`recorder.start()`, inactive after `recorder.stop()`. -/
inductive RecState where
  | recording
  | inactive
deriving DecidableEq

/-- The constructed `MediaRecorder`: its negotiated mime type and its state. -/
structure Recorder where
  mimeType : List Char
  state : RecState
deriving DecidableEq

/-- The editor's mutable state.  `recordedVideoUrl` stands for the object URL
of the finalized blob, identified with the chunk list it concatenates;
`chunks` is `chunksRef.current`; `recorder` is `mediaRecorderRef.current`;
`audioCurrentTime`/`audioPaused` mirror the `<audio>` element; `alerts` logs
the `alert(...)` messages surfaced to the user. -/
structure EditorState where
  isPlaying : Bool
  isRecording : Bool
  recordedVideoUrl : Option (List ℕ)
  recorder : Option Recorder
  chunks : List ℕ
  startTime : ℚ
  duration : ℚ
  audioCurrentTime : ℚ
  audioPaused : Bool
  alerts : List (List Char)
deriving DecidableEq

/-- The ordered encoding-format preference list probed at `start()`
(Editor.tsx lines 341–346). -/
def mimeTypes : List (List Char) :=
  ["video/webm;codecs=vp9".data, "video/webm;codecs=vp8".data,
   "video/webm".data, "video/mp4".data]

/-- Embeds `startRecording` (Editor.tsx lines 326–387): seek to `startTime`,
start playback, raise the playing/recording flags, clear the previous output
URL, then take the first supported entry of `mimeTypes`; on failure alert
and lower the flags (nothing else is touched — in particular the audio keeps
playing and the old recorder/chunk refs are left as they were); on success
construct the recorder and reset the chunk buffer.  `supported` stands for
`MediaRecorder.isTypeSupported`. -/
def startRecording (supported : List Char → Bool) (s : EditorState) :
    EditorState :=
  let s1 := { s with audioCurrentTime := s.startTime, audioPaused := false,
                     isPlaying := true, isRecording := true,
                     recordedVideoUrl := none }
  match mimeTypes.find? supported with
  | none =>
    { s1 with alerts := s1.alerts ++ ["Seu navegador não suporta gravação de vídeo.".data],
              isPlaying := false, isRecording := false }
  | some m =>
    { s1 with recorder := some ⟨m, RecState.recording⟩, chunks := [] }

/-- Embeds `stopRecording` (Editor.tsx lines 389–393): signal the recorder to
stop when one exists and is not already inactive; the asynchronous `onstop`
finalization is `recorderOnStop`. -/
def stopRecording (s : EditorState) : EditorState :=
  match s.recorder with
  | some r =>
    if r.state ≠ RecState.inactive then
      { s with recorder := some ⟨r.mimeType, RecState.inactive⟩ }
    else s
  | none => s

/-- Embeds the recorder's `onstop` callback (Editor.tsx lines 369–378):
concatenate the buffered chunks into the output blob, expose its URL, lower
the flags, pause the audio and reset its cursor to the chosen start time. -/
def recorderOnStop (s : EditorState) : EditorState :=
  { s with recordedVideoUrl := some s.chunks, isPlaying := false,
           isRecording := false, audioPaused := true,
           audioCurrentTime := s.startTime }

/-- The `start()` action as the user can actually trigger it: the REC button
is rendered only when `!isRecording && !recordedVideoUrl` (Editor.tsx lines
508–516), so clicking start outside that condition is impossible — a no-op at
the dispatch level. -/
def uiStartClick (supported : List Char → Bool) (s : EditorState) :
    EditorState :=
  if s.isRecording = false ∧ s.recordedVideoUrl = none then
    startRecording supported s
  else s

/-- Embeds one firing of the duration-cap interval callback (Editor.tsx lines
79–84): with `elapsed` seconds since the recording started, call
`stopRecording` exactly when `elapsed >= 30`. -/
def timerTick (elapsed : ℚ) (s : EditorState) : EditorState :=
  if 30 ≤ elapsed then stopRecording s else s

/-- The polling interval of the cap timer, in seconds (`setInterval(..., 100)`
at Editor.tsx line 84: 100 ms). -/
def pollInterval : ℚ := 1 / 10

/-- Embeds the `audio.onended` handler body (Editor.tsx lines 52–55) as a
function of the `isRecording` value its closure captured: the element stops at
the track end, `setIsPlaying(false)` runs, and `stopRecording` runs only if
the captured flag was true. -/
def audioOnEnded (capturedIsRecording : Bool) (s : EditorState) : EditorState :=
  let s1 := { s with isPlaying := false, audioPaused := true }
  if capturedIsRecording then stopRecording s1 else s1

/-- The `onended` handler actually installed: the installing effect (Editor.tsx
lines 41–72) re-runs only when `songData.url` changes, so the closure captures
`isRecording` from the render in which the track was loaded — where it is
`false` — and never sees later values. -/
def registeredOnEnded (s : EditorState) : EditorState :=
  audioOnEnded false s

/-- The value an HTML range input delivers for a requested value `v`: clamped
into `[min, max]`, here `min = 0` and
`max = duration > 30 ? duration - 30 : 0` (Editor.tsx lines 487–488).  The
input also snaps to its step of 1 second; slider-requested values are already
step multiples, so only the clamp is modelled. -/
def rangeInputValue (duration v : ℚ) : ℚ :=
  max 0 (min (if 30 < duration then duration - 30 else 0) v)

/-- Embeds `handleStartTimeChange` (Editor.tsx lines 316–324) composed with
the range input that feeds it (lines 485–494): the clamped value is stored in
`startTime` and written to the audio cursor. -/
def handleStartTimeChange (raw : ℚ) (s : EditorState) : EditorState :=
  let v := rangeInputValue s.duration raw
  { s with startTime := v, audioCurrentTime := v }

/-- The clamp the specification describes: `clamp(s, 0, max(0, D − 30))`. -/
def specClamp (v lo hi : ℚ) : ℚ := max lo (min v hi)

/-- A triggered download: the `href` (the blob URL, identified with its chunk
list) and the suggested filename. -/
structure DownloadAction where
  href : List ℕ
  filename : List Char
deriving DecidableEq

/-- Embeds the regex replacement of Editor.tsx line 401 — every maximal run
of whitespace in the track name becomes a single dash — one character at a
time: `prevWs` records whether the previous character was whitespace. -/
def dashWsGo (prevWs : Bool) : List Char → List Char
  | [] => []
  | c :: cs =>
    if c.isWhitespace then
      (if prevWs then dashWsGo true cs else '-' :: dashWsGo true cs)
    else c :: dashWsGo false cs

/-- The suggested filename of `downloadVideo` (Editor.tsx line 401): the
literal StatusBeat- prefix, the track name with whitespace runs dashed, and
the literal `.webm` extension, independent of the negotiated format. -/
def suggestedFilename (name : List Char) : List Char :=
  "StatusBeat-".data ++ dashWsGo false name ++ ".webm".data

/-- Embeds `downloadVideo` (Editor.tsx lines 395–405): no action without a
recorded URL; otherwise an anchor download of that URL under the suggested
filename. -/
def downloadVideo (name : List Char) (s : EditorState) :
    Option DownloadAction :=
  match s.recordedVideoUrl with
  | none => none
  | some u => some ⟨u, suggestedFilename name⟩

/-- Splits a text into the tokens delimited by its maximal whitespace runs
(with empty boundary tokens for leading/trailing runs); `inRun` records
whether we are inside a whitespace run. -/
def runSplitF (inRun : Bool) : List Char → List (List Char)
  | [] => [[]]
  | c :: cs =>
    if c.isWhitespace then
      (if inRun then runSplitF true cs else [] :: runSplitF true cs)
    else consHead c (runSplitF false cs)

/-! ## Render-loop scheduler (Editor.tsx lines 284–299)

`loop` draws a frame and, while the closure's captured `isPlaying` or
`isRecording` is set, re-requests itself via `requestAnimationFrame`, storing
the request id in `animationFrameRef`.  The effect on `[isPlaying,
visualizerMode]` either starts the loop (playing) or requests one settling
frame and cancels the stored id (not playing).  We model the animation-frame
queue explicitly: each pending entry is a request id paired with the closure
it will run. -/

/-- The flags a `loop` closure captured from its defining render. -/
structure LoopClosure where
  isPlaying : Bool
  isRecording : Bool
deriving DecidableEq

/-- The animation-frame scheduler state: the queue of pending callbacks (id,
captured closure), the next fresh request id, the id stored in
`animationFrameRef.current`, and a count of frames drawn so far. -/
structure Sched where
  pending : List (ℕ × LoopClosure)
  nextId : ℕ
  storedId : ℕ
  frames : ℕ
deriving DecidableEq

/-- `requestAnimationFrame(loop)`: enqueue the closure under a fresh id and
return that id. -/
def rafRequest (c : LoopClosure) (s : Sched) : Sched × ℕ :=
  ({ s with pending := s.pending ++ [(s.nextId, c)], nextId := s.nextId + 1 },
   s.nextId)

/-- `cancelAnimationFrame(id)`: drop the pending entry with that id. -/
def rafCancel (id : ℕ) (s : Sched) : Sched :=
  { s with pending := s.pending.filter (fun p => p.1 ≠ id) }

/-- One execution of the `loop` closure (Editor.tsx lines 284–289): draw a
frame (`drawVisualizer`), then — if the captured `isPlaying || isRecording` —
re-request and store the id. -/
def loopRun (c : LoopClosure) (s : Sched) : Sched :=
  let s1 := { s with frames := s.frames + 1 }
  if c.isPlaying || c.isRecording then
    let q := rafRequest c s1
    { q.1 with storedId := q.2 }
  else s1

/-- The scheduler effect body (Editor.tsx lines 291–299), run with the flags
`c` of the render that triggered it: when playing, request the loop and store
the id; otherwise request one settling frame (id not stored) and cancel the
previously stored id. -/
def schedEffect (c : LoopClosure) (s : Sched) : Sched :=
  if c.isPlaying then
    let q := rafRequest c s
    { q.1 with storedId := q.2 }
  else
    rafCancel s.storedId (rafRequest c s).1

/-- One event-loop animation tick: run the oldest pending callback, if any. -/
def schedTick (s : Sched) : Sched :=
  match s.pending with
  | [] => s
  | (_, c) :: rest => loopRun c { s with pending := rest }

/-! ## Concrete states used to instantiate the theorems -/

/-- An idle editor session on a 40-second track: nothing recorded yet. -/
def idleState : EditorState :=
  { isPlaying := false, isRecording := false, recordedVideoUrl := none,
    recorder := none, chunks := [], startTime := 0, duration := 40,
    audioCurrentTime := 0, audioPaused := true, alerts := [] }

/-- A session 25 seconds into an active recording of a 25-second track, at the
moment the track ends: recorder running, two chunks buffered. -/
def recAt25 : EditorState :=
  { isPlaying := true, isRecording := true, recordedVideoUrl := none,
    recorder := some ⟨"video/webm;codecs=vp9".data, RecState.recording⟩,
    chunks := [0, 1], startTime := 0, duration := 25, audioCurrentTime := 25,
    audioPaused := false, alerts := [] }

/-- An active recording session on the 40-second track. -/
def recActive : EditorState :=
  { idleState with
    isPlaying := true,
    isRecording := true,
    recorder := some ⟨"video/webm;codecs=vp9".data, RecState.recording⟩,
    chunks := [] }

/-- A Ready session: a finished output (negotiated as video/mp4) awaiting
download or discard. -/
def readyMp4 : EditorState :=
  { idleState with
    recordedVideoUrl := some [7, 8, 9],
    recorder := some ⟨"video/mp4".data, RecState.inactive⟩,
    chunks := [7, 8, 9] }

/-- A scheduler mid-playback: one pending loop callback whose id is stored. -/
def schedPlaying : Sched :=
  { pending := [(3, ⟨true, false⟩)], nextId := 4, storedId := 3, frames := 10 }

/-- A radial-mode render configuration with no background image or caption. -/
def circleCfg : RenderCfg :=
  { mode := .circle, backgroundImage := none, name := "t".data, caption := [] }

/-- A bars-mode render configuration. -/
def barsCfg : RenderCfg :=
  { mode := .bars, backgroundImage := none, name := "t".data, caption := [] }

/-- A simple concrete text measure: the character count. -/
def lenMeasure (l : List Char) : ℚ := l.length

/-! ## Claim theorems -/

/-- C1: the specification says a natural track end is treated identically to a
manual `stop()`.  In the code the `onended` closure was installed by the
effect keyed on `songData.url` and therefore captured `isRecording = false`
from the track-load render, so when the 25-second track ends mid-recording
the installed handler leaves the encoder running and the recording flag set —
while the handler the specification describes (captured flag true), and a
manual `stopRecording`, would signal the encoder to stop. -/
theorem natural_end_stale_closure :
    (registeredOnEnded recAt25).recorder =
      some ⟨"video/webm;codecs=vp9".data, RecState.recording⟩ ∧
    (registeredOnEnded recAt25).isRecording = true ∧
    (audioOnEnded true recAt25).recorder =
      some ⟨"video/webm;codecs=vp9".data, RecState.inactive⟩ ∧
    (stopRecording recAt25).recorder =
      some ⟨"video/webm;codecs=vp9".data, RecState.inactive⟩ := by
  decide

/-- C2: elapsed time is sampled by the cap timer on a polling grid whose first
sample is within one interval of the start and whose consecutive samples are
at most one interval apart; the first sample `K` that sees `elapsed ≥ 30`
stops the recorder (`timerTick` is the identity on every earlier sample), and
that stopping sample is at most `30 + pollInterval` — so the recorded
duration never exceeds the cap by more than one polling interval. -/
theorem recording_cap_bound (e : ℕ → ℚ) (h0 : e 0 ≤ pollInterval)
    (hgap : ∀ k, e (k + 1) ≤ e k + pollInterval)
    (K : ℕ) (hK : 30 ≤ e K) (hmin : ∀ j, j < K → e j < 30)
    (s : EditorState) (r : Recorder) (hr : s.recorder = some r)
    (hrec : r.state = RecState.recording) :
    e K ≤ 30 + pollInterval ∧
    (∀ j, j < K → timerTick (e j) s = s) ∧
    (timerTick (e K) s).recorder =
      some ⟨r.mimeType, RecState.inactive⟩ := by
  refine ⟨?_, ?_, ?_⟩
  · cases K with
    | zero =>
      have hi : pollInterval = 1 / 10 := rfl
      rw [hi] at h0 ⊢
      linarith
    | succ K0 =>
      have h1 := hmin K0 (Nat.lt_succ_self K0)
      have h2 := hgap K0
      linarith
  · intro j hj
    unfold timerTick
    rw [if_neg (not_le.mpr (hmin j hj))]
  · unfold timerTick
    rw [if_pos hK]
    simp [stopRecording, hr, hrec]

/-- C2 witness: the idealized 100 ms grid stops at sample 299, at elapsed
exactly 30 s, within the allowed `30 + pollInterval` bound. -/
theorem recording_cap_bound_witness :
    ((299 : ℚ) + 1) / 10 ≤ 30 + pollInterval ∧
    (timerTick (((299 : ℚ) + 1) / 10) recActive).recorder =
      some ⟨"video/webm;codecs=vp9".data, RecState.inactive⟩ := by
  have h := recording_cap_bound (fun k => ((k : ℚ) + 1) / 10)
    (by norm_num [pollInterval])
    (by
      intro k
      push_cast
      rw [pollInterval]
      ring_nf
      linarith)
    299 (by norm_num)
    (by
      intro j hj
      have hj' : (j : ℚ) < 299 := by exact_mod_cast hj
      rw [div_lt_iff₀ (by norm_num : (0 : ℚ) < 10)]
      linarith)
    recActive ⟨"video/webm;codecs=vp9".data, RecState.recording⟩ (by decide) rfl
  exact ⟨h.1, h.2.2⟩

/-- C3: for every track duration and every requested start offset, the value
the range input delivers and the handler stores (and writes to the audio
cursor) is `clamp(raw, 0, max(0, duration − 30))`; hence
`startOffset + 30 ≤ duration` whenever `duration > 30`, and the offset is 0
otherwise. -/
theorem start_offset_clamped (raw : ℚ) (s : EditorState) :
    (handleStartTimeChange raw s).startTime =
      specClamp raw 0 (max 0 (s.duration - 30)) ∧
    (handleStartTimeChange raw s).audioCurrentTime =
      (handleStartTimeChange raw s).startTime ∧
    (30 < s.duration →
      (handleStartTimeChange raw s).startTime + 30 ≤ s.duration) ∧
    (s.duration ≤ 30 → (handleStartTimeChange raw s).startTime = 0) := by
  unfold handleStartTimeChange rangeInputValue specClamp
  rcases lt_or_le 30 s.duration with h | h
  · rw [if_pos h]
    refine ⟨?_, rfl, ?_, ?_⟩
    · rw [max_eq_right (by linarith : (0 : ℚ) ≤ s.duration - 30), min_comm]
    · intro _
      have h1 : min (s.duration - 30) raw ≤ s.duration - 30 := min_le_left _ _
      have h2 : max 0 (min (s.duration - 30) raw) ≤ s.duration - 30 :=
        max_le (by linarith) h1
      linarith
    · intro h2; linarith
  · rw [if_neg (not_lt.mpr h)]
    refine ⟨?_, rfl, ?_, ?_⟩
    · rw [max_eq_left (by linarith : s.duration - 30 ≤ 0), min_comm]
    · intro h2; exact absurd h2 (not_lt.mpr h)
    · intro _
      rw [max_eq_left (min_le_left 0 raw)]

/-- C3 witness: on the 40-second track a requested offset of 20 is clamped to
10, and the invariant `startOffset + 30 ≤ duration` holds there. -/
theorem start_offset_clamped_witness :
    (handleStartTimeChange 20 idleState).startTime + 30 ≤ idleState.duration ∧
    (handleStartTimeChange 20 idleState).startTime = 10 := by
  refine ⟨(start_offset_clamped 20 idleState).2.2.1 (by decide), ?_⟩
  simp [handleStartTimeChange, rangeInputValue, idleState]
  norm_num [min_def, max_def]

/-- C4: `start()` as the user can trigger it is gated by the REC button, which
is rendered only when not recording and no output exists; so invoking start
while Recording or Finalizing (`isRecording` still set) or Ready (an output
URL exists) is a no-op that leaves the state unchanged, and start proceeds
exactly from the Idle/Failed configurations (not recording, no output). -/
theorem start_rejected_outside_idle (supported : List Char → Bool)
    (s : EditorState) :
    (s.isRecording = true → uiStartClick supported s = s) ∧
    (∀ u, s.recordedVideoUrl = some u → uiStartClick supported s = s) ∧
    (s.isRecording = false → s.recordedVideoUrl = none →
      uiStartClick supported s = startRecording supported s) := by
  refine ⟨?_, ?_, ?_⟩ <;> unfold uiStartClick
  · intro h
    rw [if_neg]
    simp [h]
  · intro u h
    rw [if_neg]
    simp [h]
  · intro h1 h2
    rw [if_pos ⟨h1, h2⟩]

/-- C4 witness: start clicked during an active recording and in the Ready
state changes nothing; from idle it launches a recording. -/
theorem start_rejected_outside_idle_witness :
    uiStartClick (fun _ => true) recActive = recActive ∧
    uiStartClick (fun _ => true) readyMp4 = readyMp4 ∧
    uiStartClick (fun _ => true) idleState =
      startRecording (fun _ => true) idleState := by
  refine ⟨(start_rejected_outside_idle (fun _ => true) recActive).1 (by decide),
    (start_rejected_outside_idle (fun _ => true) readyMp4).2.1 [7, 8, 9]
      (by decide),
    (start_rejected_outside_idle (fun _ => true) idleState).2.2 (by decide)
      (by decide)⟩

/-- C9: `startRecording` clears the previous output URL before format
negotiation, so when no listed format is supported the previously recorded
output is gone — `downloadVideo` can no longer retrieve it — even though no
new recording was produced (flags lowered, recorder and chunk refs
untouched). -/
theorem start_clears_previous_output (supported : List Char → Bool)
    (s : EditorState) (u : List ℕ) (_hprev : s.recordedVideoUrl = some u)
    (hfail : mimeTypes.find? supported = none) :
    (startRecording supported s).recordedVideoUrl = none ∧
    (∀ name, downloadVideo name (startRecording supported s) = none) ∧
    (startRecording supported s).isRecording = false ∧
    (startRecording supported s).recorder = s.recorder ∧
    (startRecording supported s).chunks = s.chunks := by
  unfold startRecording
  rw [hfail]
  exact ⟨rfl, fun name => rfl, rfl, rfl, rfl⟩

/-- C9 witness: from the Ready state, a start attempt on a platform with no
supported format leaves no retrievable output behind. -/
theorem start_clears_previous_output_witness :
    (startRecording (fun _ => false) readyMp4).recordedVideoUrl = none ∧
    (startRecording (fun _ => false) readyMp4).isRecording = false := by
  have h := start_clears_previous_output (fun _ => false) readyMp4 [7, 8, 9]
    (by decide) (by decide)
  exact ⟨h.1, h.2.2.1⟩

/-- C5: `start()` chooses the first entry of the fixed ordered preference
list that the platform supports (the closed form below makes the probing
order explicit); on success a recorder in that format starts with a fresh
chunk buffer; when no listed format is supported the attempt fails with the
user-surfaced alert, no recorder is constructed (the ref is untouched), no
output resource is produced, no chunk is buffered by the attempt, and a later
`start()` on a capable platform proceeds from scratch. -/
theorem format_negotiation (supported : List Char → Bool) (s : EditorState) :
    (mimeTypes.find? supported =
      (if supported "video/webm;codecs=vp9".data then
        some "video/webm;codecs=vp9".data
       else if supported "video/webm;codecs=vp8".data then
        some "video/webm;codecs=vp8".data
       else if supported "video/webm".data then some "video/webm".data
       else if supported "video/mp4".data then some "video/mp4".data
       else none)) ∧
    (∀ m, mimeTypes.find? supported = some m →
      (startRecording supported s).recorder = some ⟨m, RecState.recording⟩ ∧
      (startRecording supported s).chunks = [] ∧
      (startRecording supported s).isRecording = true) ∧
    (mimeTypes.find? supported = none →
      (startRecording supported s).recorder = s.recorder ∧
      (startRecording supported s).chunks = s.chunks ∧
      (startRecording supported s).isRecording = false ∧
      (startRecording supported s).recordedVideoUrl = none ∧
      (startRecording supported s).alerts =
        s.alerts ++ ["Seu navegador não suporta gravação de vídeo.".data] ∧
      (∀ supported2 m2, mimeTypes.find? supported2 = some m2 →
        (startRecording supported2 (startRecording supported s)).recorder =
          some ⟨m2, RecState.recording⟩ ∧
        (startRecording supported2 (startRecording supported s)).chunks = [] ∧
        (startRecording supported2
          (startRecording supported s)).isRecording = true)) := by
  refine ⟨?_, ?_, ?_⟩
  · cases h1 : supported "video/webm;codecs=vp9".data <;>
      cases h2 : supported "video/webm;codecs=vp8".data <;>
      cases h3 : supported "video/webm".data <;>
      cases h4 : supported "video/mp4".data <;>
      simp [mimeTypes, List.find?, h1, h2, h3, h4]
  · intro m hm
    unfold startRecording
    rw [hm]
    exact ⟨rfl, rfl, rfl⟩
  · intro hfail
    refine ⟨?_, ?_, ?_, ?_, ?_, ?_⟩
    · unfold startRecording; rw [hfail]
    · unfold startRecording; rw [hfail]
    · unfold startRecording; rw [hfail]
    · unfold startRecording; rw [hfail]
    · unfold startRecording; rw [hfail]
    · intro supported2 m2 hm2
      unfold startRecording
      rw [hfail, hm2]
      exact ⟨rfl, rfl, rfl⟩

/-- C5 witness: on a platform supporting nothing, start from idle fails with
the alert, constructs no recorder and buffers nothing; a retry on a platform
supporting everything starts a vp9 recording from scratch. -/
theorem format_negotiation_witness :
    (startRecording (fun _ => false) idleState).recorder = none ∧
    (startRecording (fun _ => false) idleState).chunks = [] ∧
    (startRecording (fun _ => false) idleState).isRecording = false ∧
    (startRecording (fun _ => true)
        (startRecording (fun _ => false) idleState)).recorder =
      some ⟨"video/webm;codecs=vp9".data, RecState.recording⟩ := by
  have h := (format_negotiation (fun _ => false) idleState).2.2 (by decide)
  have h2 := h.2.2.2.2.2 (fun _ => true) "video/webm;codecs=vp9".data
    (by decide)
  exact ⟨h.1, h.2.1, h.2.2.1, h2.1⟩

/-- C8: when the scheduler effect runs after a transition into an inactive
state (closure flags: not playing, not recording), with at most the stored
loop request outstanding, exactly one settling callback is enqueued; running
it draws exactly one frame and schedules nothing further; and from that
quiescent state any effect run for a playing closure restarts the loop (its
tick leaves another frame pending). -/
theorem scheduler_settling_frame (c : LoopClosure) (s : Sched)
    (hp : c.isPlaying = false) (hr : c.isRecording = false)
    (hpend : ∀ p ∈ s.pending, p.1 = s.storedId)
    (hid : s.storedId < s.nextId) :
    (schedEffect c s).pending = [(s.nextId, c)] ∧
    (schedTick (schedEffect c s)).frames = s.frames + 1 ∧
    (schedTick (schedEffect c s)).pending = [] ∧
    (∀ c2 : LoopClosure, c2.isPlaying = true →
      (schedTick (schedEffect c2 (schedTick (schedEffect c s)))).pending ≠
        []) := by
  have hfilter : s.pending.filter (fun p => p.1 ≠ s.storedId) = [] := by
    rw [List.filter_eq_nil_iff]
    intro p hp'
    simp [hpend p hp']
  have hne : s.nextId ≠ s.storedId := Nat.ne_of_gt hid
  have heff : (schedEffect c s).pending = [(s.nextId, c)] := by
    simp only [schedEffect, hp, if_false, rafRequest, rafCancel,
      Bool.false_eq_true, List.filter_append, hfilter]
    simp [hne]
  refine ⟨heff, ?_, ?_, ?_⟩
  · have hframes : (schedEffect c s).frames = s.frames := by
      simp [schedEffect, hp, rafRequest, rafCancel]
    unfold schedTick
    rw [heff]
    simp [loopRun, hp, hr, hframes]
  · unfold schedTick
    rw [heff]
    simp [loopRun, hp, hr]
  · intro c2 hc2
    unfold schedTick
    rw [heff]
    simp [loopRun, hp, hr, schedEffect, hc2, rafRequest]

/-- C8 witness: from a playing scheduler with one stored pending loop
callback, a pause transition yields exactly one settling frame and an empty
queue. -/
theorem scheduler_settling_frame_witness :
    (schedEffect ⟨false, false⟩ schedPlaying).pending =
      [(schedPlaying.nextId, ⟨false, false⟩)] ∧
    (schedTick (schedEffect ⟨false, false⟩ schedPlaying)).frames =
      schedPlaying.frames + 1 ∧
    (schedTick (schedEffect ⟨false, false⟩ schedPlaying)).pending = [] := by
  have h := scheduler_settling_frame ⟨false, false⟩ schedPlaying rfl rfl
    (by decide) (by decide)
  exact ⟨h.1, h.2.1, h.2.2.1⟩

/-- `runSplitF` always produces at least one token. -/
theorem runSplitF_ne_nil (b : Bool) (l : List Char) : runSplitF b l ≠ [] := by
  induction l generalizing b with
  | nil => simp [runSplitF]
  | cons c cs ih =>
    unfold runSplitF
    by_cases hc : c.isWhitespace
    · rw [if_pos hc]
      cases b
      · simp
      · exact ih true
    · rw [if_neg hc]
      cases h : runSplitF false cs with
      | nil => exact absurd h (ih false)
      | cons w ws => simp [consHead]

/-- Joining after prepending a character to the first token prepends it to
the joined text (when there is a first token). -/
theorem joinSep_consHead (sep : List Char) (c : Char) (L : List (List Char))
    (h : L ≠ []) : joinSep sep (consHead c L) = c :: joinSep sep L := by
  cases L with
  | nil => exact absurd rfl h
  | cons w ws =>
    cases ws with
    | nil => rfl
    | cons x xs => simp [consHead, joinSep]

/-- Joining with a leading empty token emits the separator first (when more
tokens follow). -/
theorem joinSep_nil_cons (sep : List Char) (L : List (List Char))
    (h : L ≠ []) : joinSep sep ([] :: L) = sep ++ joinSep sep L := by
  cases L with
  | nil => exact absurd rfl h
  | cons w ws => simp [joinSep]

/-- The character-by-character dash replacement equals the maximal-run
characterization: split the text on maximal whitespace runs and join the
tokens with single dashes. -/
theorem dashWs_eq_runSplit (l : List Char) (b : Bool) :
    dashWsGo b l = joinSep ['-'] (runSplitF b l) := by
  induction l generalizing b with
  | nil => cases b <;> rfl
  | cons c cs ih =>
    unfold dashWsGo runSplitF
    by_cases hc : c.isWhitespace
    · rw [if_pos hc, if_pos hc]
      cases b
      · simp only [Bool.false_eq_true, if_false]
        rw [joinSep_nil_cons ['-'] _ (runSplitF_ne_nil true cs), ih true]
        rfl
      · simp only [if_true]
        exact ih true
    · rw [if_neg hc, if_neg hc]
      rw [joinSep_consHead ['-'] c _ (runSplitF_ne_nil false cs), ih false]

/-- C10: for every completed recording — whatever format was negotiated, the
state may hold any recorder — the suggested download filename is the literal
StatusBeat- prefix, then the track title with every maximal whitespace run
replaced by a single dash, then the literal `.webm` extension. -/
theorem download_filename_webm (name : List Char) (s : EditorState)
    (u : List ℕ) (h : s.recordedVideoUrl = some u) :
    downloadVideo name s =
      some ⟨u, "StatusBeat-".data ++ joinSep ['-'] (runSplitF false name) ++
        ".webm".data⟩ := by
  unfold downloadVideo
  rw [h]
  unfold suggestedFilename
  rw [dashWs_eq_runSplit]

/-- C10 witness: the Ready state that negotiated video/mp4 still downloads
under a .webm name, with the space of the title dashed. -/
theorem download_filename_webm_witness :
    downloadVideo "My Song".data readyMp4 =
      some ⟨[7, 8, 9], "StatusBeat-My-Song.webm".data⟩ := by
  have h := download_filename_webm "My Song".data readyMp4 [7, 8, 9]
    (by decide)
  rw [h]
  decide

/-- `jsSplit` always produces at least one piece. -/
theorem jsSplit_ne_nil (c : Char) (l : List Char) : jsSplit c l ≠ [] := by
  induction l with
  | nil => simp [jsSplit]
  | cons x xs ih =>
    unfold jsSplit
    by_cases hx : x = c
    · rw [if_pos hx]; simp
    · rw [if_neg hx]
      cases h : jsSplit c xs with
      | nil => exact absurd h ih
      | cons w ws => simp [consHead]

/-- No piece produced by `jsSplit` contains the separator. -/
theorem jsSplit_not_mem (c : Char) (l : List Char) :
    ∀ w ∈ jsSplit c l, c ∉ w := by
  induction l with
  | nil =>
    intro w hw
    have hwe : w = [] := by simpa [jsSplit] using hw
    subst hwe
    simp
  | cons x xs ih =>
    intro w hw
    unfold jsSplit at hw
    by_cases hx : x = c
    · rw [if_pos hx] at hw
      rcases List.mem_cons.mp hw with hw | hw
      · simp [hw]
      · exact ih w hw
    · rw [if_neg hx] at hw
      cases h : jsSplit c xs with
      | nil => exact absurd h (jsSplit_ne_nil c xs)
      | cons w0 ws =>
        rw [h] at hw
        simp only [consHead, List.mem_cons] at hw
        rcases hw with hw | hw
        · subst hw
          intro hmem
          rcases List.mem_cons.mp hmem with h1 | h1
          · exact hx h1.symm
          · exact ih w0 (by rw [h]; exact List.mem_cons_self w0 ws) h1
        · exact ih w (by rw [h]; exact List.mem_cons_of_mem w0 hw)

/-- Prepending to the first piece commutes with appending more pieces. -/
theorem consHead_append (x : Char) (A B : List (List Char)) (h : A ≠ []) :
    consHead x (A ++ B) = consHead x A ++ B := by
  cases A with
  | nil => exact absurd rfl h
  | cons w ws => simp [consHead]

/-- The cons unfolding of `jsSplit`, stated as an equation for rewriting. -/
theorem jsSplit_cons (c x : Char) (xs : List Char) :
    jsSplit c (x :: xs) =
      if x = c then [] :: jsSplit c xs else consHead x (jsSplit c xs) := rfl

/-- Splitting a text with one separator inserted splits around it. -/
theorem jsSplit_append_sep (c : Char) (xs ys : List Char) :
    jsSplit c (xs ++ c :: ys) = jsSplit c xs ++ jsSplit c ys := by
  induction xs with
  | nil => simp [jsSplit]
  | cons x xs ih =>
    rw [List.cons_append, jsSplit_cons, jsSplit_cons]
    by_cases hx : x = c
    · rw [if_pos hx, if_pos hx, ih]
      rfl
    · rw [if_neg hx, if_neg hx, ih,
        consHead_append x (jsSplit c xs) (jsSplit c ys) (jsSplit_ne_nil c xs)]

/-- A separator-free text splits into itself alone. -/
theorem jsSplit_no_sep (c : Char) (w : List Char) (h : c ∉ w) :
    jsSplit c w = [w] := by
  induction w with
  | nil => rfl
  | cons x xs ih =>
    have hx : x ≠ c := fun he => h (he ▸ List.mem_cons_self x xs)
    have hxs : c ∉ xs := fun hm => h (List.mem_cons_of_mem x hm)
    unfold jsSplit
    rw [if_neg hx, ih hxs]
    rfl

/-- Splitting the exact string a line accumulates recovers its words plus the
empty piece left by the trailing space. -/
theorem jsSplit_lineOf (ws : List (List Char)) (h : ∀ w ∈ ws, ' ' ∉ w) :
    jsSplit ' ' (lineOf ws) = ws ++ [[]] := by
  induction ws with
  | nil => rfl
  | cons w rest ih =>
    have hw : ' ' ∉ w := h w (List.mem_cons_self w rest)
    have hrest : ∀ v ∈ rest, ' ' ∉ v := fun v hv => h v (List.mem_cons_of_mem w hv)
    have hshape : lineOf (w :: rest) = w ++ ' ' :: lineOf rest := by
      simp [lineOf]
    rw [hshape, jsSplit_append_sep, jsSplit_no_sep ' ' w hw, ih hrest]
    rfl

/-- Splitting a space-joined list of pieces yields the concatenation of the
splits of the pieces. -/
theorem jsSplit_joinSep (P : List (List Char)) (h : P ≠ []) :
    jsSplit ' ' (joinSep [' '] P) = (P.map (jsSplit ' ')).flatten := by
  induction P with
  | nil => exact absurd rfl h
  | cons p q ih =>
    cases q with
    | nil => simp [joinSep]
    | cons q0 qs =>
      have hshape : joinSep [' '] (p :: q0 :: qs) =
          p ++ ' ' :: joinSep [' '] (q0 :: qs) := by
        simp [joinSep]
      rw [hshape, jsSplit_append_sep, ih (by simp)]
      simp

/-- The wrap loop produces at least one line. -/
theorem wrapGo_ne_nil (measure : List Char → ℚ) (mw : ℚ)
    (line : List (List Char)) (first : Bool) (ws : List (List Char)) :
    wrapGo measure mw line first ws ≠ [] := by
  cases ws with
  | nil => simp [wrapGo]
  | cons w ws2 =>
    unfold wrapGo
    by_cases hc : mw < measure (lineOf (line ++ [w])) ∧ first = false
    · rw [if_pos hc]; simp
    · rw [if_neg hc]
      exact wrapGo_ne_nil measure mw (line ++ [w]) false ws2

/-- Flattening the wrapped lines recovers the pending line followed by the
remaining words: no word is broken, reordered, duplicated or dropped. -/
theorem wrapGo_flatten (measure : List Char → ℚ) (mw : ℚ)
    (ws : List (List Char)) :
    ∀ line first, (wrapGo measure mw line first ws).flatten = line ++ ws := by
  induction ws with
  | nil => intro line first; simp [wrapGo]
  | cons w ws2 ih =>
    intro line first
    unfold wrapGo
    by_cases hc : mw < measure (lineOf (line ++ [w])) ∧ first = false
    · rw [if_pos hc]
      rw [List.flatten_cons, ih [w] false]
      rfl
    · rw [if_neg hc]
      rw [ih (line ++ [w]) false, List.append_assoc]
      rfl

/-- Every line the wrap loop emits either measures within the maximum or
consists of a single word. -/
theorem wrapGo_width (measure : List Char → ℚ) (mw : ℚ)
    (ws : List (List Char)) :
    ∀ line first, (first = true → line = []) →
      (first = false → measure (lineOf line) ≤ mw ∨ ∃ w, line = [w]) →
      (ws = [] → first = false) →
      ∀ l ∈ wrapGo measure mw line first ws,
        measure (lineOf l) ≤ mw ∨ ∃ w, l = [w] := by
  induction ws with
  | nil =>
    intro line first _h1 h2 h3 l hl
    simp [wrapGo] at hl
    subst hl
    exact h2 (h3 rfl)
  | cons w ws2 ih =>
    intro line first h1 h2 _h3 l hl
    unfold wrapGo at hl
    by_cases hc : mw < measure (lineOf (line ++ [w])) ∧ first = false
    · rw [if_pos hc] at hl
      rcases List.mem_cons.mp hl with hl | hl
      · subst hl
        exact h2 hc.2
      · exact ih [w] false (by simp) (fun _ => Or.inr ⟨w, rfl⟩)
          (fun _ => rfl) l hl
    · rw [if_neg hc] at hl
      refine ih (line ++ [w]) false (by simp) ?_ (fun _ => rfl) l hl
      intro _
      cases first with
      | true =>
        rw [h1 rfl]
        exact Or.inr ⟨w, rfl⟩
      | false =>
        left
        by_contra hgt
        exact hc ⟨lt_of_not_le fun hle => hgt hle, rfl⟩

/-- The trailing empty piece the line's trailing space leaves behind is
dropped by the nonempty filter. -/
theorem filter_ne_nil_append_empty (l : List (List Char)) :
    (l ++ [[]]).filter (fun w => w ≠ []) = l.filter (fun w => w ≠ []) := by
  rw [List.filter_append]
  simp

/-- Appending a trailing empty piece to every group does not change the
nonempty pieces of the flattened list. -/
theorem filter_flatten_append_empty (L : List (List (List Char))) :
    ((L.map (fun l => l ++ [[]])).flatten).filter (fun w => w ≠ []) =
      L.flatten.filter (fun w => w ≠ []) := by
  rw [List.filter_flatten, List.filter_flatten, List.map_map]
  congr 1
  exact List.map_congr_left (fun l _ => filter_ne_nil_append_empty l)

/-- C7: the greedy word wrap (a) never breaks mid-word — flattening the lines
gives back exactly the split words, in order; (b) re-joining the produced
line strings with single spaces reproduces the original text modulo
whitespace collapsing; and (c) every produced line measures within the
maximum except a line consisting of a single word (drawn unbroken).  The
width function is arbitrary. -/
theorem wrap_algorithm_spec (measure : List Char → ℚ) (mw : ℚ)
    (text : List Char) :
    (wrapText measure mw text).flatten = jsSplit ' ' text ∧
    collapseWs (joinSep [' '] ((wrapText measure mw text).map lineOf)) =
      collapseWs text ∧
    ∀ l ∈ wrapText measure mw text,
      measure (lineOf l) ≤ mw ∨ ∃ w, l = [w] := by
  have hfl : (wrapGo measure mw [] true (jsSplit ' ' text)).flatten =
      jsSplit ' ' text := by
    rw [wrapGo_flatten]
    simp
  have hnn := wrapGo_ne_nil measure mw [] true (jsSplit ' ' text)
  have hsf : ∀ l ∈ wrapGo measure mw [] true (jsSplit ' ' text),
      ∀ w ∈ l, ' ' ∉ w := by
    intro l hl w hw
    exact jsSplit_not_mem ' ' text w (hfl ▸ List.mem_flatten.mpr ⟨l, hl, hw⟩)
  refine ⟨hfl, ?_, ?_⟩
  · unfold wrapText collapseWs
    have hmapnn : (wrapGo measure mw [] true (jsSplit ' ' text)).map lineOf ≠
        [] := by
      simp [hnn]
    have hc1 : ((wrapGo measure mw [] true (jsSplit ' ' text)).map
          lineOf).map (jsSplit ' ') =
        (wrapGo measure mw [] true (jsSplit ' ' text)).map
          (fun l => l ++ [[]]) := by
      rw [List.map_map]
      exact List.map_congr_left (fun l hl => jsSplit_lineOf l (hsf l hl))
    rw [jsSplit_joinSep _ hmapnn, hc1, filter_flatten_append_empty, hfl]
  · intro l hl
    refine wrapGo_width measure mw (jsSplit ' ' text) [] true (fun _ => rfl)
      (fun h => by cases h) (fun h => absurd h (jsSplit_ne_nil ' ' text)) l ?_
    exact hl

/-- Reading any index of an all-zero buffer (with default 0) gives 0. -/
theorem getD_replicate_zero (n i : ℕ) :
    (List.replicate n (0 : ℕ)).getD i 0 = 0 := by
  induction n generalizing i with
  | zero => rfl
  | succ n ih =>
    cases i with
    | zero => rfl
    | succ i => exact ih i

/-- On an all-zero analysis frame every bar has zero height, so the bars
renderer paints nothing. -/
theorem visible_drawBars_zero (n : ℕ) :
    visibleOps (drawBars (List.replicate n 0)) = [] := by
  unfold visibleOps drawBars
  rw [List.filter_eq_nil_iff]
  intro op hop
  rcases List.mem_map.mp hop with ⟨i, _hi, hop2⟩
  rw [getD_replicate_zero] at hop2
  subst hop2
  simp [opVisible]

/-- On an all-zero analysis frame every radial tick has zero length, so the
radial renderer paints exactly the static ring outline. -/
theorem visible_drawCircle_zero (n : ℕ) :
    visibleOps (drawCircle (List.replicate n 0)) =
      [.ringStroke (CANVAS_WIDTH / 2) (CANVAS_HEIGHT / 2) (150 - 5)] := by
  unfold visibleOps drawCircle
  rw [List.filter_append]
  have hticks : ((List.range 120).map (fun (i : ℕ) =>
      let dataIndex : ℕ :=
        (((i : ℚ) * (((List.replicate n (0 : ℕ)).length : ℚ) / 2)) /
          (120 : ℕ)).floor.toNat
      DrawOp.radialTick i
        (((List.replicate n (0 : ℕ)).getD dataIndex 0 : ℚ) * (4 / 5))
        (i * 3))).filter opVisible = [] := by
    rw [List.filter_eq_nil_iff]
    intro op hop
    rcases List.mem_map.mp hop with ⟨i, _hi, hop2⟩
    subst hop2
    simp [opVisible, getD_replicate_zero]
  rw [hticks]
  simp [opVisible]

/-- C6 counterexample: in radial mode with the analysis graph closed the
rendered frame is not pixel-equal to the frame rendered for an all-zero
analysis frame — the latter contains the static ring outline, the former does
not, because the code skips the whole visualization step when the analyser is
absent. -/
theorem zero_frame_radial_counterexample :
    visibleOps (drawVisualizer lenMeasure circleCfg none 0 100) ≠
      visibleOps (drawVisualizer lenMeasure circleCfg
        (some (List.replicate 128 0)) 0 100) := by
  intro h
  have hvis : opVisible (DrawOp.ringStroke (CANVAS_WIDTH / 2)
      (CANVAS_HEIGHT / 2) (150 - 5)) = true := rfl
  have hinR : DrawOp.ringStroke (CANVAS_WIDTH / 2) (CANVAS_HEIGHT / 2)
      (150 - 5) ∈ drawVisualizer lenMeasure circleCfg
        (some (List.replicate 128 0)) 0 100 := by
    show DrawOp.ringStroke (CANVAS_WIDTH / 2) (CANVAS_HEIGHT / 2) (150 - 5) ∈
      drawBackground circleCfg ++ drawText lenMeasure circleCfg ++
        (if circleCfg.mode = VisualizerMode.bars then
          drawBars (List.replicate 128 0)
         else drawCircle (List.replicate 128 0)) ++
        (if (100 : ℚ) ≠ 0 then
          [DrawOp.fillRect 0 (CANVAS_HEIGHT - 6) (CANVAS_WIDTH * (0 / 100)) 6
            34 197 94 1]
         else [])
    rw [if_neg (by decide : ¬(circleCfg.mode = VisualizerMode.bars))]
    simp [drawCircle]
  have hR : DrawOp.ringStroke (CANVAS_WIDTH / 2) (CANVAS_HEIGHT / 2)
      (150 - 5) ∈ visibleOps (drawVisualizer lenMeasure circleCfg
        (some (List.replicate 128 0)) 0 100) := by
    unfold visibleOps
    exact List.mem_filter.mpr ⟨hinR, hvis⟩
  rw [← h] at hR
  unfold visibleOps at hR
  have hL := List.mem_of_mem_filter hR
  unfold drawVisualizer at hL
  simp only [List.mem_append] at hL
  rcases hL with ((h1 | h1) | h1) | h1
  · simp [drawBackground, circleCfg] at h1
  · simp [drawText, circleCfg] at h1
  · exact absurd h1 (List.not_mem_nil _)
  · rw [if_pos (by norm_num : (100 : ℚ) ≠ 0)] at h1
    simp at h1

/-- `visibleOps` distributes over concatenation of display lists. -/
theorem visibleOps_append (a b : List DrawOp) :
    visibleOps (a ++ b) = visibleOps a ++ visibleOps b := by
  unfold visibleOps
  exact List.filter_append a b

/-- C6 amended: with the analysis graph closed the renderer always draws the
background, title/caption text and progress bar; in bars mode the frame is
pixel-identical to the frame rendered for an all-zero analysis frame; in
radial mode the all-zero frame differs from the closed-graph frame exactly by
the static ring outline (the code skips the whole visualization step — ring
included — when the analyser is absent). -/
theorem zero_frame_fallback_amended (measure : List Char → ℚ)
    (cfg : RenderCfg) (ct d : ℚ) (n : ℕ) :
    (cfg.mode = VisualizerMode.bars →
      visibleOps (drawVisualizer measure cfg none ct d) =
        visibleOps (drawVisualizer measure cfg (some (List.replicate n 0))
          ct d)) ∧
    (cfg.mode = VisualizerMode.circle →
      ∃ pre post,
        visibleOps (drawVisualizer measure cfg none ct d) = pre ++ post ∧
        visibleOps (drawVisualizer measure cfg (some (List.replicate n 0))
            ct d) =
          pre ++ [DrawOp.ringStroke (CANVAS_WIDTH / 2) (CANVAS_HEIGHT / 2)
            (150 - 5)] ++ post) := by
  have e1 : drawVisualizer measure cfg none ct d =
      drawBackground cfg ++ drawText measure cfg ++ [] ++
        (if d ≠ 0 then
          [DrawOp.fillRect 0 (CANVAS_HEIGHT - 6) (CANVAS_WIDTH * (ct / d)) 6
            34 197 94 1]
         else []) := rfl
  have e2 : drawVisualizer measure cfg (some (List.replicate n 0)) ct d =
      drawBackground cfg ++ drawText measure cfg ++
        (if cfg.mode = VisualizerMode.bars then
          drawBars (List.replicate n 0)
         else drawCircle (List.replicate n 0)) ++
        (if d ≠ 0 then
          [DrawOp.fillRect 0 (CANVAS_HEIGHT - 6) (CANVAS_WIDTH * (ct / d)) 6
            34 197 94 1]
         else []) := rfl
  constructor
  · intro hmode
    rw [e1, e2, hmode, if_pos rfl]
    simp only [visibleOps_append, visible_drawBars_zero]
    simp [visibleOps]
  · intro hmode
    refine ⟨visibleOps (drawBackground cfg ++ drawText measure cfg),
      visibleOps (if d ≠ 0 then
        [DrawOp.fillRect 0 (CANVAS_HEIGHT - 6) (CANVAS_WIDTH * (ct / d)) 6
          34 197 94 1]
       else []), ?_, ?_⟩
    · rw [e1]
      simp only [visibleOps_append]
      simp [visibleOps]
    · rw [e2, hmode]
      rw [if_neg (by decide : ¬(VisualizerMode.circle = VisualizerMode.bars))]
      simp only [visibleOps_append, visible_drawCircle_zero]

/-- C6 witness: on the concrete bars configuration the closed-graph frame and
the all-zero frame coincide. -/
theorem zero_frame_fallback_amended_witness :
    visibleOps (drawVisualizer lenMeasure barsCfg none 0 100) =
      visibleOps (drawVisualizer lenMeasure barsCfg
        (some (List.replicate 128 0)) 0 100) :=
  (zero_frame_fallback_amended lenMeasure barsCfg 0 100 128).1 rfl
